import Mathlib

/-!
Shallow embedding of the wayback-machine-downloader snapshot acquisition
pipeline (TypeScript sources under `src/`), together with theorems checking
the natural-language specification against it.

Strings are modelled through their character lists (`String.data`); machine
effects (HTTP fetches, filesystem writes, backoff waits) are made explicit:
an oracle function stands for `fetch`, an association list stands for the
file system, and each modelled command returns its effects alongside its
result.
-/

set_option maxHeartbeats 1000000
set_option linter.unusedVariables false

namespace Wayback

/-- Boolean test that the character list `p` occurs at the start of `l`
(model of `String.prototype.startsWith` on decoded characters). -/
def listStarts (l p : List Char) : Bool := p.isPrefixOf l

/-- Boolean test that the character list `p` occurs at the end of `l`
(model of a `$`-anchored regular-expression alternative). -/
def listEnds (l p : List Char) : Bool := p.isSuffixOf l

/-- Boolean test that the character list `p` occurs contiguously somewhere in
`l` (model of `String.prototype.includes`). -/
def listContains : List Char → List Char → Bool
  | [], p => p.isEmpty
  | c :: t, p => p.isPrefixOf (c :: t) || listContains t p

/-- String wrapper for `listStarts`. -/
def strStarts (s p : String) : Bool := listStarts s.data p.data

/-- String wrapper for `listEnds`. -/
def strEnds (s p : String) : Bool := listEnds s.data p.data

/-- String wrapper for `listContains`. -/
def strContains (s p : String) : Bool := listContains s.data p.data

/-- Model of Node's `path.join` for the argument shapes the program uses
(plain segments, no `..` or `.` components, so no normalisation applies). -/
def pathJoin (a b : String) : String :=
  if a = "" then b
  else if b = "" then a
  else if strEnds a "/" then a ++ b
  else a ++ "/" ++ b

/-- File system model: an association list from absolute path to file
content; the first binding for a path is its current content. -/
abbrev Fs := List (String × String)

/-- Read a file (model of `fs.readFile` / `existsSync` through `isSome`). -/
def fsGet (fs : Fs) (p : String) : Option String := fs.lookup p

/-- Overwrite a file (model of `createWriteStream` + `pipeline` completing,
and of `fs.writeFile`). -/
def fsSet (fs : Fs) (p v : String) : Fs := (p, v) :: fs

/-- Append to a file, creating it when missing (model of `fs.appendFile`). -/
def fsAppend (fs : Fs) (p line : String) : Fs :=
  match fsGet fs p with
  | some old => fsSet fs p (old ++ line)
  | none => fsSet fs p line

/-- Capture record: one row of the CDX index response
(`src/types/capture.ts`). -/
structure Capture where
  timestamp : String
  original : String
  mimetype : Option String := none
deriving Repr, DecidableEq

/-- CLI options consumed by the core (`src/types/options.ts`). The source
fields `from` and `to` are Lean keywords and are embedded as `fromOpt` and
`toOpt`. Absent optional flags are embedded as `false` / `none`. -/
structure CLIOptions where
  out : String := "./wayback"
  concurrency : Nat := 10
  fromOpt : Option String := none
  toOpt : Option String := none
  rewrite : Bool := false
  debug : Bool := false
  includeExternal : Bool := false
  noInteractive : Bool := false
  noDedup : Bool := false
deriving Repr, DecidableEq

/-! URL model: a simplified WHATWG `URL` for already-normalised `http(s)`
URLs (no percent-encoding or dot-segment normalisation, which the program's
inputs — CDX `original` URLs and the attribute values of archived pages —
do not rely on). `new URL(s)` throwing on a non-`http(s)` or hostless
string is modelled by returning `none`. -/

structure ParsedUrl where
  scheme : String
  host : String
  pathname : String
  /-- Query string plus fragment, kept verbatim. -/
  tail : String
deriving Repr, DecidableEq

/-- Parse an absolute `http(s)` URL (model of `new URL(s)` for the scheme
family the program works with). -/
def parseHttpUrl (s : String) : Option ParsedUrl :=
  let go := fun (scheme : String) (rest : List Char) =>
    let host := rest.takeWhile (fun c => !(c == '/' || c == '?' || c == '#'))
    if host.isEmpty then none
    else
      let after := rest.drop host.length
      let pn := after.takeWhile (fun c => !(c == '?' || c == '#'))
      let tl := after.drop pn.length
      let pathname := if pn.isEmpty then "/" else String.mk pn
      some (ParsedUrl.mk scheme (String.mk host) pathname (String.mk tl))
  if strStarts s "https://" then go "https" (s.data.drop 8)
  else if strStarts s "http://" then go "http" (s.data.drop 7)
  else none

/-- Hostname of a parsed URL (model of `URL.prototype.hostname`: host
without the port). -/
def ParsedUrl.hostname (u : ParsedUrl) : String :=
  String.mk (u.host.data.takeWhile (fun c => !(c == ':')))

/-- Serialisation of a parsed URL (model of `URL.prototype.toString`). -/
def ParsedUrl.toUrlString (u : ParsedUrl) : String :=
  u.scheme ++ "://" ++ u.host ++ u.pathname ++ u.tail

/-- Model of `new URL(s).hostname` returning `none` where the constructor
would throw. -/
def urlHostname (s : String) : Option String :=
  (parseHttpUrl s).map ParsedUrl.hostname

/-- Model of `new URL(s).pathname`; theorems about it carry the
well-formedness hypothesis `(parseHttpUrl s).isSome` because the source
constructor throws where this model defaults to `"/"`. -/
def urlPathname (s : String) : String :=
  match parseHttpUrl s with
  | some u => u.pathname
  | none => "/"

/-- Model of `p.replace(/^\//, "")`: remove one leading slash. -/
def stripLeadSlash (p : String) : String :=
  match p.data with
  | '/' :: t => String.mk t
  | _ => p

/-- Embedding of `targetPath` (`src/helpers/fs.ts`): map a capture to its
destination file below `<outRoot>/<timestamp>/`. -/
def targetPath (outRoot : String) (cap : Capture) : String :=
  let p0 := urlPathname cap.original
  let p := if strEnds p0 "/" then p0 ++ "index.html" else p0
  let cleanPath := stripLeadSlash p
  pathJoin (pathJoin outRoot cap.timestamp) cleanPath

/-- Image extensions of the `im_` alternation in `waybackUrlFor`. -/
def imageExts : List String :=
  [".png", ".jpg", ".jpeg", ".gif", ".webp", ".svg", ".ico", ".bmp", ".tif", ".tiff"]

/-- Model of `s.split(c)[0]`: the text before the first occurrence of `c`. -/
def beforeChar (c : Char) (s : String) : String :=
  String.mk (s.data.takeWhile (fun x => !(x == c)))

/-- Model of `String.prototype.toLowerCase` (characterwise, which agrees
with it on the ASCII URLs the program handles). -/
def strLower (s : String) : String := String.mk (s.data.map Char.toLower)

/-- The lowercased URL with query string and fragment stripped, which
`waybackUrlFor` inspects for its extension test. -/
def extOf (originalUrl : String) : String :=
  strLower (beforeChar '#' (beforeChar '?' originalUrl))

/-- Boolean test of the image-extension alternation. -/
def isImageExt (e : String) : Bool := imageExts.any (fun x => strEnds e x)

/-- Modifier selection of `waybackUrlFor` (`src/unnamed/part_002`). -/
def waybackModFor (originalUrl : String) : String :=
  let ext := extOf originalUrl
  if isImageExt ext then "im_"
  else if strEnds ext ".css" then "cs_"
  else if strEnds ext ".js" then "js_"
  else "id_"

/-- Embedding of `waybackUrlFor`: the archive replay URL for an original
URL at a timestamp. -/
def waybackUrlFor (originalUrl timestamp : String) : String :=
  "https://web.archive.org/web/" ++ timestamp ++ waybackModFor originalUrl ++ "/" ++ originalUrl

/-! CDX index query construction (`buildCdxUrl`, `src/unnamed/part_002`). -/

/-- Characters `URLSearchParams` serialisation leaves unencoded. -/
def formUnreserved (c : Char) : Bool :=
  c.isAlphanum || c == '*' || c == '-' || c == '.' || c == '_'

/-- Upper-case hexadecimal digit for a value below 16. -/
def hexDigit (n : Nat) : Char := "0123456789ABCDEF".data.getD n '0'

/-- Percent-encoding of one byte. -/
def pctByte (b : Nat) : List Char := ['%', hexDigit (b / 16 % 16), hexDigit (b % 16)]

/-- Encoding of one character under `application/x-www-form-urlencoded`. -/
def formEncodeChar (c : Char) : List Char :=
  if c == ' ' then ['+']
  else if formUnreserved c then [c]
  else (String.utf8EncodeChar c).foldr (fun b acc => pctByte b.toNat ++ acc) []

/-- Model of the `URLSearchParams` value encoding. -/
def formEncode (s : String) : String :=
  String.mk (s.data.foldr (fun c acc => formEncodeChar c ++ acc) [])

/-- Query parameters accumulated by `buildCdxUrl`, in insertion order: the
five constructor entries, then the conditional `collapse`, `from` and `to`
appends. The `if v == ""` guards embed JavaScript truthiness tests on the
optional string options. -/
def cdxParams (rootUrl : String) (opts : CLIOptions) : List (String × String) :=
  [("url", rootUrl), ("output", "json"), ("filter", "statuscode:200"),
    ("fl", "timestamp,original,mimetype"), ("matchType", "exact")]
  ++ (if opts.noDedup then [] else [("collapse", "digest")])
  ++ (match opts.fromOpt with
      | some f => if f == "" then [] else [("from", f)]
      | none => [])
  ++ (match opts.toOpt with
      | some t => if t == "" then [] else [("to", t)]
      | none => [])

/-- Serialisation of `URLSearchParams.toString()`. -/
def renderQuery (ps : List (String × String)) : String :=
  String.intercalate "&" (ps.map (fun p => formEncode p.1 ++ "=" ++ formEncode p.2))

/-- Embedding of `buildCdxUrl`: the capture-index query URL. -/
def buildCdxUrl (rootUrl : String) (opts : CLIOptions) : String :=
  "https://web.archive.org/cdx/search/cdx?" ++ renderQuery (cdxParams rootUrl opts)

/-! Fetch model. A fetch oracle assigns to each attempt number the HTTP
response the archive returns for it; the retry loop is embedded as a
function of that oracle, reporting its observable effects (request count
and backoff waits) next to its outcome. -/

/-- HTTP response as the program observes it: status, the `content-type`
header, and the body text. -/
structure HttpResponse where
  status : Nat
  contentType : Option String := none
  body : String := ""
deriving Repr, DecidableEq

/-- Model of `Response.ok`: status in the 2xx range. -/
def resOk (r : HttpResponse) : Bool := decide (200 ≤ r.status ∧ r.status < 300)

/-- Outcome of the shared three-attempt retry loop. `fellThrough` marks the
loop completing without a return, which the loop body makes unreachable. -/
inductive FetchOutcome where
  | written (res : HttpResponse)
  | failed (status : Nat) (url : String)
  | fellThrough
deriving Repr, DecidableEq

/-- Observable trace of the retry loop: outcome, number of GET requests
issued, and the backoff waits performed (in milliseconds, in order). -/
structure FetchTrace where
  outcome : FetchOutcome
  requests : Nat
  waits : List Nat
deriving Repr, DecidableEq

/-- Embedding of the loop `for (let attempt = 1; attempt <= 3; attempt++)`
shared by `downloadUrlToPath` and `downloadSnapshot`: one GET per
iteration; on a non-2xx response the third attempt fails with the status
and URL, earlier attempts wait `attempt × 1000` ms and retry. -/
def fetchForFuel (url : String) (oracle : Nat → HttpResponse) :
    Nat → Nat → FetchTrace
  | 0, _ => ⟨.fellThrough, 0, []⟩
  | fuel + 1, attempt =>
    if attempt ≤ 3 then
      let res := oracle attempt
      if resOk res then ⟨.written res, 1, []⟩
      else if attempt == 3 then ⟨.failed res.status url, 1, []⟩
      else
        let rest := fetchForFuel url oracle fuel (attempt + 1)
        ⟨rest.outcome, rest.requests + 1, 1000 * attempt :: rest.waits⟩
    else ⟨.fellThrough, 0, []⟩

/-- The retry loop entered at a given attempt number; the structural fuel
`4 - attempt` covers every iteration the loop guard admits, so the fuel
base case coincides with the guard-failure case. -/
def fetchFor (url : String) (oracle : Nat → HttpResponse) (attempt : Nat) : FetchTrace :=
  fetchForFuel url oracle (4 - attempt) attempt

/-- Result classification of one `downloadUrlToPath` call. -/
inductive DlOutcome where
  | skipped
  | ok
  | error (status : Nat) (url : String)
  | fellThrough
deriving Repr, DecidableEq

/-- Effects and result of one `downloadUrlToPath` call. -/
structure DlResult where
  fs : Fs
  requests : Nat
  outcome : DlOutcome
deriving Repr, DecidableEq

/-- Embedding of `downloadUrlToPath` (`src/commands/downloadSnapshot.ts`):
skip when the destination exists, otherwise fetch the replay URL through
the retry loop and stream the body to the destination. The oracle maps a
URL and an attempt number to the response; `ensureDir` has no effect in
the path-to-content file system model. -/
def downloadUrlToPath (oracle : String → Nat → HttpResponse) (fs : Fs)
    (outRoot timestamp originalUrl : String) : DlResult :=
  let dest := targetPath outRoot (Capture.mk timestamp originalUrl none)
  if (fsGet fs dest).isSome then ⟨fs, 0, .skipped⟩
  else
    let url := waybackUrlFor originalUrl timestamp
    let t := fetchFor url (oracle url) 1
    match t.outcome with
    | .written res => ⟨fsSet fs dest res.body, t.requests, .ok⟩
    | .failed st u => ⟨fs, t.requests, .error st u⟩
    | .fellThrough => ⟨fs, t.requests, .fellThrough⟩

/-! Rewrite pass. The source substitution is
`html.replace(/https?:\/\/web\.archive\.org\/web\/[0-9]+id?\/_/g, "")`:
scheme, the archive host and `/web/` literally, one or more digits, a
literal `i`, an optional `d`, then the literal two characters `/_`. -/

/-- Tail of the regex after the host part: a nonempty digit run, `i`, an
optional `d`, then `/_`. The regex engine's backtracking resolves
deterministically: the digit run is maximal (a digit cannot start the `i`
branch), and the optional `d` is tried before its absence. -/
def matchArchTail (r : List Char) : Option (List Char) :=
  let ds := r.takeWhile Char.isDigit
  if ds.isEmpty then none
  else
    let r2 := r.drop ds.length
    if listStarts r2 "id/_".data then some (r2.drop 4)
    else if listStarts r2 "i/_".data then some (r2.drop 3)
    else none

/-- Match of the whole rewrite regex at the head of `l`, returning the
remainder after the matched text. -/
def matchArchAt (l : List Char) : Option (List Char) :=
  if listStarts l "https://web.archive.org/web/".data then matchArchTail (l.drop 28)
  else if listStarts l "http://web.archive.org/web/".data then matchArchTail (l.drop 27)
  else none

/-- Prefix matches bound the length of the scanned list. -/
theorem listStarts_length {l p : List Char} (h : listStarts l p = true) :
    p.length ≤ l.length := by
  have hp : p <+: l := by
    have hb := h
    unfold listStarts at hb
    exact List.isPrefixOf_iff_prefix.mp hb
  exact hp.length_le

/-- The regex tail consumes no characters beyond its input. -/
theorem matchArchTail_length {r s : List Char} (h : matchArchTail r = some s) :
    s.length ≤ r.length := by
  simp only [matchArchTail] at h
  split at h
  · exact absurd h (by simp)
  · split at h
    · cases h
      simp [List.length_drop]
    · split at h
      · cases h
        simp [List.length_drop]
      · exact absurd h (by simp)

/-- Each regex match strictly shortens the remainder. -/
theorem matchArchAt_length {l s : List Char} (h : matchArchAt l = some s) :
    s.length < l.length := by
  unfold matchArchAt at h
  split at h
  case isTrue h1 =>
    have h28 : 28 ≤ l.length := by simpa using listStarts_length h1
    have hle := matchArchTail_length h
    simp [List.length_drop] at hle
    omega
  case isFalse h1 =>
    split at h
    case isTrue h2 =>
      have h27 : 27 ≤ l.length := by simpa using listStarts_length h2
      have hle := matchArchTail_length h
      simp [List.length_drop] at hle
      omega
    case isFalse h2 => exact absurd h (by simp)

/-- Fuel-indexed scan for the global replacement; each match strictly
shortens the remainder (`matchArchAt_length`), so fuel equal to the input
length never runs out. -/
def stripArchFuel : Nat → List Char → List Char
  | 0, _ => []
  | fuel + 1, l =>
    match l with
    | [] => []
    | c :: t =>
      match matchArchAt (c :: t) with
      | some rest => stripArchFuel fuel rest
      | none => c :: stripArchFuel fuel t

/-- Global replacement with the empty string: scan left to right, drop each
match, continue scanning after it (model of `String.prototype.replace` with
the `g` flag). -/
def stripArchList (l : List Char) : List Char := stripArchFuel l.length l

/-- Embedding of the rewrite pass applied to the written page when
`options.rewrite` is set, `options.debug` is not, and the response is
HTML. -/
def rewriteHtml (html : String) : String := String.mk (stripArchList html.data)

/-! Asset extraction (`extractAssetUrls`, `src/helpers/html.ts`). The two
regular expressions `\b(?:src|href)=("|')(.*?)\1` and
`\bsrcset=("|')(.*?)\1` (global, case-insensitive) are embedded as a
scanner: at each position, if the word boundary holds and an attribute
name, `=`, a quote, a lazily matched value and the same closing quote
follow, the value is collected and scanning resumes after the match;
otherwise scanning advances one character. -/

/-- JavaScript `\w`: ASCII letters, digits and underscore. -/
def isWordChar (c : Char) : Bool := c.isAlphanum || c == '_'

/-- The single-quote character. -/
def squoteChar : Char := Char.ofNat 39

/-- Case-insensitive split of a lowercase pattern off the head of `l`,
returning the matched text in its original case and the remainder. -/
def splitCI (p l : List Char) : Option (List Char × List Char) :=
  match p, l with
  | [], l => some ([], l)
  | _ :: _, [] => none
  | pc :: pt, c :: t =>
    if c.toLower == pc then (splitCI pt t).map (fun a => (c :: a.1, a.2)) else none

/-- Lazy scan of `(.*?)\1`: the value runs to the first closing quote `q`;
a line terminator before it makes the whole match fail (`.` does not match
line terminators). -/
def scanValue (q : Char) : List Char → Option (List Char × List Char)
  | [] => none
  | c :: cs =>
    if c == q then some ([], cs)
    else if c == '\n' || c == '\r' then none
    else (scanValue q cs).map (fun p => (c :: p.1, p.2))

/-- Try one attribute name at the head of `l`: the name (case-insensitive),
`=`, a double or single quote, the lazily matched value, and the same
closing quote; on success return the matched name text, the quote, the
value and the remainder after the closing quote. -/
def matchAttrOne (n l : List Char) : Option (List Char × Char × List Char × List Char) :=
  match splitCI n l with
  | none => none
  | some (attr, r1) =>
    match r1 with
    | x :: y :: r2 =>
      if x == '=' && (y == '"' || y == squoteChar) then
        match scanValue y r2 with
        | some (v, rest) => some (attr, y, v, rest)
        | none => none
      else none
    | _ => none

/-- Try each attribute name of the alternation in order. Falling through to
later names on any failure agrees with the regex engine because the names
start with distinct characters. -/
def matchAttrNames (names : List (List Char)) (l : List Char) :
    Option (List Char × Char × List Char × List Char) :=
  match names with
  | [] => none
  | n :: ns =>
    match matchAttrOne n l with
    | some r => some r
    | none => matchAttrNames ns l

/-- Full match attempt at one position: the `\b` word boundary requires the
preceding character (when any) not to be a word character. -/
def matchAttrAt (names : List (List Char)) (prev : Option Char) (l : List Char) :
    Option (List Char × Char × List Char × List Char) :=
  if (match prev with | some c => isWordChar c | none => false) then none
  else matchAttrNames names l

/-- Specification of `splitCI`: a successful split decomposes the input and
the matched text lowercases to the pattern. -/
theorem splitCI_spec {p l a r : List Char} (h : splitCI p l = some (a, r)) :
    l = a ++ r ∧ a.map Char.toLower = p := by
  induction p generalizing l a r with
  | nil =>
    have he : splitCI ([] : List Char) l = some ([], l) := rfl
    rw [he] at h
    have hp := Option.some.inj h
    have ha : ([] : List Char) = a := congrArg Prod.fst hp
    have hr : l = r := congrArg Prod.snd hp
    refine ⟨?_, ?_⟩
    · rw [← ha]; simpa using hr
    · rw [← ha]; simp
  | cons pc pt ih =>
    cases l with
    | nil => exact Option.noConfusion h
    | cons c t =>
      simp only [splitCI] at h
      split at h
      case isTrue heq =>
        cases ha : splitCI pt t with
        | none => rw [ha] at h; exact Option.noConfusion h
        | some pr =>
          rw [ha] at h
          simp only [Option.map_some'] at h
          obtain ⟨a1, r1⟩ := pr
          have hp := Option.some.inj h
          have ha2 : c :: a1 = a := congrArg Prod.fst hp
          have hr2 : r1 = r := congrArg Prod.snd hp
          obtain ⟨h1, h2⟩ := ih ha
          refine ⟨?_, ?_⟩
          · rw [← ha2, ← hr2]; simp [h1]
          · rw [← ha2]
            simp only [List.map_cons, h2]
            have hc : c.toLower = pc := by simpa using heq
            rw [hc]
      case isFalse => exact Option.noConfusion h

/-- Specification of `scanValue`: a successful scan decomposes the input as
the value followed by the closing quote and the remainder. -/
theorem scanValue_spec {q : Char} {l v rest : List Char}
    (h : scanValue q l = some (v, rest)) : l = v ++ q :: rest := by
  induction l generalizing v rest with
  | nil => exact Option.noConfusion h
  | cons c cs ih =>
    simp only [scanValue] at h
    split at h
    case isTrue heq =>
      have hp := Option.some.inj h
      have hv : ([] : List Char) = v := congrArg Prod.fst hp
      have hr : cs = rest := congrArg Prod.snd hp
      have hc : c = q := by simpa using heq
      rw [← hv, ← hr, hc]
      simp
    case isFalse =>
      split at h
      case isTrue => exact Option.noConfusion h
      case isFalse =>
        cases hs : scanValue q cs with
        | none => rw [hs] at h; exact Option.noConfusion h
        | some pr =>
          rw [hs] at h
          simp only [Option.map_some'] at h
          obtain ⟨v1, r1⟩ := pr
          have hp := Option.some.inj h
          have hv : c :: v1 = v := congrArg Prod.fst hp
          have hr : r1 = rest := congrArg Prod.snd hp
          rw [← hv, ← hr]
          simpa using congrArg (c :: ·) (ih hs)

/-- Specification of `matchAttrOne`: a successful match decomposes the
input as the attribute text, `=`, a quote, the value, the same quote, and
the remainder; the attribute lowercases to the name and the quote is
double or single. -/
theorem matchAttrOne_spec {n l a : List Char} {q : Char} {v rest : List Char}
    (h : matchAttrOne n l = some (a, q, v, rest)) :
    l = a ++ '=' :: q :: (v ++ q :: rest) ∧ a.map Char.toLower = n ∧
      (q == '"' || q == squoteChar) = true := by
  unfold matchAttrOne at h
  split at h
  next => exact Option.noConfusion h
  next attr r1 hs =>
    split at h
    next x y r2 =>
      split at h
      next hxy =>
        split at h
        next vv rr hv =>
          have hp := Option.some.inj h
          have h1 : attr = a := congrArg (fun z => z.1) hp
          have h2 : y = q := congrArg (fun z => z.2.1) hp
          have h3 : vv = v := congrArg (fun z => z.2.2.1) hp
          have h4 : rr = rest := congrArg (fun z => z.2.2.2) hp
          obtain ⟨hl, hlow⟩ := splitCI_spec hs
          have hx : x = '=' := by
            have hb := hxy
            simp only [Bool.and_eq_true, beq_iff_eq] at hb
            exact hb.1
          have hq : (q == '"' || q == squoteChar) = true := by
            have hb := hxy
            simp only [Bool.and_eq_true] at hb
            rw [← h2]
            exact hb.2
          have hdec := scanValue_spec hv
          subst h1; subst h2; subst h3; subst h4
          refine ⟨?_, hlow, hq⟩
          rw [hl, hx, hdec]
        next hv => exact Option.noConfusion h
      next => exact Option.noConfusion h
    next => exact Option.noConfusion h

/-- Specification of `matchAttrNames`: as `matchAttrOne`, with the
attribute lowercasing to one of the names. -/
theorem matchAttrNames_spec {names : List (List Char)} {l a : List Char} {q : Char}
    {v rest : List Char} (h : matchAttrNames names l = some (a, q, v, rest)) :
    l = a ++ '=' :: q :: (v ++ q :: rest) ∧ a.map Char.toLower ∈ names ∧
      (q == '"' || q == squoteChar) = true := by
  induction names with
  | nil => exact Option.noConfusion h
  | cons n ns ih =>
    simp only [matchAttrNames] at h
    cases ho : matchAttrOne n l with
    | none =>
      rw [ho] at h
      obtain ⟨h1, h2, h3⟩ := ih h
      exact ⟨h1, by simp [h2], h3⟩
    | some r =>
      rw [ho] at h
      have hr := Option.some.inj h
      rw [hr] at ho
      obtain ⟨h1, h2, h3⟩ := matchAttrOne_spec ho
      exact ⟨h1, by simp [h2], h3⟩

/-- Specification of `matchAttrAt`, inherited from `matchAttrNames`. -/
theorem matchAttrAt_spec {names : List (List Char)} {prev : Option Char}
    {l a : List Char} {q : Char} {v rest : List Char}
    (h : matchAttrAt names prev l = some (a, q, v, rest)) :
    l = a ++ '=' :: q :: (v ++ q :: rest) ∧ a.map Char.toLower ∈ names ∧
      (q == '"' || q == squoteChar) = true := by
  unfold matchAttrAt at h
  split at h
  · exact Option.noConfusion h
  · exact matchAttrNames_spec h

/-- A successful attribute match strictly shortens the remainder. -/
theorem matchAttrAt_length {names : List (List Char)} {prev : Option Char}
    {l a : List Char} {q : Char} {v rest : List Char}
    (h : matchAttrAt names prev l = some (a, q, v, rest)) :
    rest.length < l.length := by
  have hd := (matchAttrAt_spec h).1
  have hlen : l.length = a.length + (v.length + rest.length + 2) + 1 := by
    simp [hd, List.length_append]
    omega
  omega

/-- Fuel-indexed attribute scan; each match strictly shortens the remainder
(`matchAttrAt_length`), so fuel equal to the input length never runs out. -/
def scanAttrsFuel (names : List (List Char)) : Nat → Option Char → List Char → List (List Char)
  | 0, _, _ => []
  | fuel + 1, prev, l =>
    match l with
    | [] => []
    | c :: t =>
      match matchAttrAt names prev (c :: t) with
      | some (_, q, v, rest) => v :: scanAttrsFuel names fuel (some q) rest
      | none => scanAttrsFuel names fuel (some c) t

/-- The attribute-value scanner: collect every match of the attribute regex
over the input, resuming after each match (model of repeated
`RegExp.prototype.exec` with the `g` flag). -/
def scanAttrs (names : List (List Char)) (prev : Option Char) (l : List Char) :
    List (List Char) :=
  scanAttrsFuel names l.length prev l

/-- The attribute names of the first extraction regex, lowercase. -/
def attrNames : List (List Char) := ["src".data, "href".data]

/-- The attribute name of the srcset extraction regex, lowercase. -/
def srcsetNames : List (List Char) := ["srcset".data]

/-- Model of `String.prototype.split(",")`. -/
def splitComma : List Char → List (List Char)
  | [] => [[]]
  | c :: t =>
    if c == ',' then [] :: splitComma t
    else
      match splitComma t with
      | h :: r => (c :: h) :: r
      | [] => [[c]]

/-- JavaScript whitespace as used by `trim` and `\s` on ASCII input. -/
def isJsSpace (c : Char) : Bool :=
  c == ' ' || c == '\t' || c == '\n' || c == '\r' || c == '\x0b' || c == '\x0c'

/-- Model of `p.trim().split(/\s+/)[0]`: the first whitespace-delimited
token of a srcset descriptor (empty when the descriptor is blank). -/
def firstToken (l : List Char) : List Char :=
  (l.dropWhile isJsSpace).takeWhile (fun c => !isJsSpace c)

/-- Scheme detector: a leading ASCII letter followed by scheme characters
and a colon. -/
def schemeOf (s : String) : Option String :=
  let sch := s.data.takeWhile (fun c => c.isAlphanum || c == '+' || c == '-' || c == '.')
  match s.data.drop sch.length with
  | ':' :: _ =>
    match sch with
    | [] => none
    | c :: _ => if c.isAlpha then some (String.mk sch) else none
  | _ => none

/-- Everything of `p.pathname` up to and including the last `/` (the base
directory for relative reference resolution). -/
def dirOf (p : List Char) : List Char :=
  ((p.reverse).dropWhile (fun c => !(c == '/'))).reverse

/-- Model of `new URL(u, base).toString()` for the inputs the extractor
meets: absolute `http(s)` URLs reserialise; other-scheme URLs (`data:`,
`javascript:`, `mailto:`) serialise as given; protocol-relative, absolute
and relative references resolve against the base; `none` models the
constructor throwing. -/
def resolveUrl (base cand : String) : Option String :=
  match schemeOf cand with
  | some sch =>
    if sch == "http" || sch == "https" then (parseHttpUrl cand).map ParsedUrl.toUrlString
    else some cand
  | none =>
    if strStarts cand "//" then
      match parseHttpUrl base with
      | some b => (parseHttpUrl (b.scheme ++ ":" ++ cand)).map ParsedUrl.toUrlString
      | none => none
    else
      match parseHttpUrl base with
      | none => none
      | some b =>
        if strStarts cand "/" then some (b.scheme ++ "://" ++ b.host ++ cand)
        else some (b.scheme ++ "://" ++ b.host ++ String.mk (dirOf b.pathname.data) ++ cand)

/-- Embedding of the `add` closure of `extractAssetUrls`: ignore empty
candidates (JavaScript falsiness), resolve against the base, silently drop
resolution failures, record the absolute URL. -/
def addCandidate (base : String) (acc : List String) (v : String) : List String :=
  if v == "" then acc
  else
    match resolveUrl base v with
    | some abs => acc ++ [abs]
    | none => acc

/-- Deduplication keeping first occurrences (model of inserting into a
`Set` and listing it with `Array.from`). -/
def dedupFirstAux (seen : List String) : List String → List String
  | [] => []
  | x :: xs => if seen.contains x then dedupFirstAux seen xs else x :: dedupFirstAux (x :: seen) xs

/-- Top-level wrapper of `dedupFirstAux`. -/
def dedupFirst (l : List String) : List String := dedupFirstAux [] l

/-- The final filter of `extractAssetUrls`:
`/^(https?:)?\//.test(u) && !u.startsWith("data:") && !u.startsWith("javascript:")`.
The regex holds exactly of strings starting with `/`, `http:/` or
`https:/`. -/
def urlKeep (u : String) : Bool :=
  (strStarts u "/" || strStarts u "http:/" || strStarts u "https:/")
    && !(strStarts u "data:") && !(strStarts u "javascript:")

/-- Embedding of `extractAssetUrls` (`src/helpers/html.ts`): collect
`src`/`href` attribute values, then first tokens of `srcset` descriptors,
resolve each against the base URL, deduplicate in insertion order, filter. -/
def extractAssetUrls (html baseUrl : String) : List String :=
  let attrVals := (scanAttrs attrNames none html.data).map String.mk
  let srcsetVals := (scanAttrs srcsetNames none html.data).map String.mk
  let srcsetTokens := srcsetVals.foldl
    (fun acc v => acc ++ (splitComma v.data).map (fun p => String.mk (firstToken p))) []
  let candidates := attrVals ++ srcsetTokens
  let resolved := candidates.foldl (addCandidate baseUrl) []
  (dedupFirst resolved).filter urlKeep

/-! Snapshot download (`downloadSnapshot`, `src/commands/downloadSnapshot.ts`).
The oracle maps a replay URL and an attempt number to the response fetch
returns for it. -/

/-- Effects and result of one `downloadSnapshot` call: final file system,
total GET requests issued, and the propagated page `FetchError` if any. -/
structure SnapResult where
  fs : Fs
  requests : Nat
  err : Option (Nat × String)
deriving Repr, DecidableEq

/-- Model of `JSON.stringify(cap)`: an explicit record text. No theorem
depends on this payload beyond it being nonempty. -/
def jsonOfCapture (cap : Capture) : String :=
  "\x7b\"timestamp\":\"" ++ cap.timestamp ++ "\",\"original\":\"" ++ cap.original ++ "\"\x7d"

/-- The debug metadata path `path.join(outRoot, cap.timestamp, "debug.json")`. -/
def debugPathFor (outRoot : String) (cap : Capture) : String :=
  pathJoin (pathJoin outRoot cap.timestamp) "debug.json"

/-- Step 2 of `downloadSnapshot`: append one JSON line to `debug.json` when
`options.debug` is set. -/
def debugStep (fs : Fs) (outRoot : String) (cap : Capture) (opts : CLIOptions) : Fs :=
  if opts.debug then fsAppend fs (debugPathFor outRoot cap) (jsonOfCapture cap ++ "\n") else fs

/-- Step 3 of `downloadSnapshot`: read the page back, extract candidate
asset URLs, keep the same-hostname subset unless `options.includeExternal`
is set. A missing destination file or an unparsable capture URL models the
`try` block catching and skipping asset discovery. -/
def assetList (fs : Fs) (outRoot : String) (cap : Capture) (opts : CLIOptions) : List String :=
  match fsGet fs (targetPath outRoot cap) with
  | none => []
  | some html =>
    let assets := extractAssetUrls html cap.original
    match urlHostname cap.original with
    | none => []
    | some rootHost =>
      let sameHost := assets.filter (fun a =>
        match urlHostname a with
        | some h => h == rootHost
        | none => false)
      if opts.includeExternal then assets else sameHost

/-- Step 4 of `downloadSnapshot`: fetch every asset through
`downloadUrlToPath`, each call swallowing its own failure
(`.catch(() => {})`); the fold accumulates file-system effects and the
request count and discards outcomes. -/
def assetStep (oracle : String → Nat → HttpResponse) (fs : Fs) (outRoot : String)
    (cap : Capture) (opts : CLIOptions) : Fs × Nat :=
  (assetList fs outRoot cap opts).foldl
    (fun acc a =>
      let r := downloadUrlToPath oracle acc.1 outRoot cap.timestamp a
      (r.fs, acc.2 + r.requests))
    (fs, 0)

/-- Step 1 of `downloadSnapshot`: fetch the page unless its destination
exists; on success write the body and, when `options.rewrite` is set,
`options.debug` is not, and the `content-type` header contains
`text/html`, rewrite the written file; on exhausted retries report the
`FetchError`. -/
def pageStep (oracle : String → Nat → HttpResponse) (fs0 : Fs) (outRoot : String)
    (cap : Capture) (opts : CLIOptions) : Fs × Nat × Option (Nat × String) :=
  let dest := targetPath outRoot cap
  if (fsGet fs0 dest).isSome then (fs0, 0, none)
  else
    let url := waybackUrlFor cap.original cap.timestamp
    let t := fetchFor url (oracle url) 1
    match t.outcome with
    | .written res =>
      let fs1 := fsSet fs0 dest res.body
      let doRewrite := !opts.debug && opts.rewrite &&
        (match res.contentType with
         | some c => strContains c "text/html"
         | none => false)
      let fs2 :=
        if doRewrite then fsSet fs1 dest (rewriteHtml ((fsGet fs1 dest).getD ""))
        else fs1
      (fs2, t.requests, none)
    | .failed st u => (fs0, t.requests, some (st, u))
    | .fellThrough => (fs0, t.requests, none)

/-- Embedding of `downloadSnapshot`: page fetch, debug metadata, asset
fan-out. A page `FetchError` propagates immediately; asset failures are
swallowed inside `assetStep`. -/
def downloadSnapshot (oracle : String → Nat → HttpResponse) (fs0 : Fs)
    (outRoot : String) (cap : Capture) (opts : CLIOptions) : SnapResult :=
  match pageStep oracle fs0 outRoot cap opts with
  | (fs2, reqs, some e) => ⟨fs2, reqs, some e⟩
  | (fs2, reqs, none) =>
    let fs3 := debugStep fs2 outRoot cap opts
    let ar := assetStep oracle fs3 outRoot cap opts
    ⟨ar.1, reqs + ar.2, none⟩

/-! Shared helper lemmas. -/

/-- Unfolding of the retry loop entered at attempt 1 into its at most three
iterations. -/
theorem fetchFor_one (url : String) (f : Nat → HttpResponse) :
    fetchFor url f 1 =
      if resOk (f 1) then ⟨.written (f 1), 1, []⟩
      else if resOk (f 2) then ⟨.written (f 2), 2, [1000]⟩
      else if resOk (f 3) then ⟨.written (f 3), 3, [1000, 2000]⟩
      else ⟨.failed (f 3).status url, 3, [1000, 2000]⟩ := by
  show fetchForFuel url f 3 1 = _
  simp only [fetchForFuel]
  norm_num
  split
  · rfl
  · split
    · rfl
    · split <;> rfl

/-- Suffix test as list suffixes. -/
theorem strEnds_iff {s p : String} : strEnds s p = true ↔ p.data <:+ s.data := by
  unfold strEnds listEnds
  exact List.isSuffixOf_iff_suffix

/-- Two suffix patterns that match the same string are comparable; patterns
that are not comparable cannot both match. -/
theorem strEnds_disjoint {e a b : String} (ha : strEnds e a = true)
    (hb : strEnds e b = true)
    (hnab : (a.data.isSuffixOf b.data || b.data.isSuffixOf a.data) = false) : False := by
  have ha2 : a.data <:+ e.data := strEnds_iff.mp ha
  have hb2 : b.data <:+ e.data := strEnds_iff.mp hb
  rcases List.suffix_or_suffix_of_suffix ha2 hb2 with h | h
  · have hT : a.data.isSuffixOf b.data = true := List.isSuffixOf_iff_suffix.mpr h
    rw [hT] at hnab
    simp at hnab
  · have hT : b.data.isSuffixOf a.data = true := List.isSuffixOf_iff_suffix.mpr h
    rw [hT] at hnab
    simp at hnab

/-- A string ending in `.css` matches no image extension. -/
theorem css_not_image {e : String} (h : strEnds e ".css" = true) :
    isImageExt e = false := by
  cases him : isImageExt e with
  | false => rfl
  | true =>
    exfalso
    unfold isImageExt at him
    rw [List.any_eq_true] at him
    obtain ⟨x, hx, hsx⟩ := him
    fin_cases hx <;> exact strEnds_disjoint h hsx (by decide)

/-- A string ending in `.js` matches no image extension. -/
theorem js_not_image {e : String} (h : strEnds e ".js" = true) :
    isImageExt e = false := by
  cases him : isImageExt e with
  | false => rfl
  | true =>
    exfalso
    unfold isImageExt at him
    rw [List.any_eq_true] at him
    obtain ⟨x, hx, hsx⟩ := him
    fin_cases hx <;> exact strEnds_disjoint h hsx (by decide)

/-- A string ending in `.js` does not end in `.css`. -/
theorem js_not_css {e : String} (h : strEnds e ".js" = true) :
    strEnds e ".css" = false := by
  cases hc : strEnds e ".css" with
  | false => rfl
  | true => exact absurd (strEnds_disjoint h hc (by decide)) (by simp)

/-- Reading an untouched path through one overwrite. -/
theorem fsGet_fsSet_ne {fs : Fs} {p q v : String} (h : p ≠ q) :
    fsGet (fsSet fs q v) p = fsGet fs p := by
  unfold fsGet fsSet
  have hb : (p == q) = false := beq_eq_false_iff_ne.mpr h
  simp [List.lookup, hb]

/-- Reading the written path through one overwrite. -/
theorem fsGet_fsSet_self {fs : Fs} {q v : String} :
    fsGet (fsSet fs q v) q = some v := by
  unfold fsGet fsSet
  simp [List.lookup]

/-- Reading an untouched path through one append. -/
theorem fsGet_fsAppend_ne {fs : Fs} {p q line : String} (h : p ≠ q) :
    fsGet (fsAppend fs q line) p = fsGet fs p := by
  unfold fsAppend
  cases fsGet fs q <;> exact fsGet_fsSet_ne h

/-- A `downloadUrlToPath` call never disturbs a path that already holds
content: it writes only to its own destination, and only when that
destination is absent. -/
theorem downloadUrlToPath_preserves {oracle : String → Nat → HttpResponse}
    {fs : Fs} {outRoot ts a p c : String} (h : fsGet fs p = some c) :
    fsGet (downloadUrlToPath oracle fs outRoot ts a).fs p = some c := by
  unfold downloadUrlToPath
  cases hex : (fsGet fs (targetPath outRoot (Capture.mk ts a none))).isSome with
  | true => simp [hex, h]
  | false =>
    simp only [hex, Bool.false_eq_true, if_false]
    split
    · rename_i res heq
      have hne : p ≠ targetPath outRoot (Capture.mk ts a none) := by
        intro hpe
        rw [hpe] at h
        rw [h] at hex
        simp at hex
      simpa using (fsGet_fsSet_ne hne).trans h
    · simpa using h
    · simpa using h

/-- The asset fold never disturbs a path that already holds content. -/
theorem assetFold_preserves {oracle : String → Nat → HttpResponse}
    {outRoot ts p c : String} (L : List String) (fs : Fs) (n : Nat)
    (h : fsGet fs p = some c) :
    fsGet ((L.foldl
        (fun acc a =>
          let r := downloadUrlToPath oracle acc.1 outRoot ts a
          (r.fs, acc.2 + r.requests)) (fs, n)).1) p = some c := by
  induction L generalizing fs n with
  | nil => simpa using h
  | cons a L ih =>
    simp only [List.foldl_cons]
    exact ih _ _ (downloadUrlToPath_preserves h)

/-- When every destination of the fold is already present, the fold is a
no-op: no writes and no requests. -/
theorem assetFold_skip (oracle : String → Nat → HttpResponse)
    (outRoot ts : String) (L : List String) (fs : Fs) (n : Nat)
    (h : ∀ a ∈ L, (fsGet fs (targetPath outRoot (Capture.mk ts a none))).isSome = true) :
    L.foldl
        (fun acc a =>
          let r := downloadUrlToPath oracle acc.1 outRoot ts a
          (r.fs, acc.2 + r.requests)) (fs, n) = (fs, n) := by
  induction L generalizing n with
  | nil => rfl
  | cons a L ih =>
    simp only [List.foldl_cons]
    have ha := h a (by simp)
    have hdl : downloadUrlToPath oracle fs outRoot ts a = ⟨fs, 0, .skipped⟩ := by
      unfold downloadUrlToPath
      simp [ha]
    rw [hdl]
    simpa using ih n (fun x hx => h x (by simp [hx]))

/-! Claim theorems. -/

/-- C2: for every capture whose original URL's path component ends in `/`,
`targetPath` returns `join(outRoot, timestamp, path ++ "index.html")` with
the leading `/` stripped; for every other capture it returns
`join(outRoot, timestamp, path)` with only the leading `/` stripped; and
the result never depends on the URL's hostname (captures with equal
timestamps and equal path components map to the same destination whatever
their hostnames). -/
theorem targetPath_spec (outRoot : String) (cap : Capture) (u : ParsedUrl)
    (hu : parseHttpUrl cap.original = some u) :
    (strEnds u.pathname "/" = true →
      targetPath outRoot cap =
        pathJoin (pathJoin outRoot cap.timestamp) (stripLeadSlash (u.pathname ++ "index.html")))
    ∧ (strEnds u.pathname "/" = false →
      targetPath outRoot cap =
        pathJoin (pathJoin outRoot cap.timestamp) (stripLeadSlash u.pathname))
    ∧ (∀ cap2 : Capture, ∀ u2 : ParsedUrl, parseHttpUrl cap2.original = some u2 →
        cap2.timestamp = cap.timestamp → u2.pathname = u.pathname →
        targetPath outRoot cap2 = targetPath outRoot cap) := by
  refine ⟨?_, ?_, ?_⟩
  · intro hsl
    unfold targetPath urlPathname
    rw [hu]
    simp [hsl]
  · intro hsl
    unfold targetPath urlPathname
    rw [hu]
    simp [hsl]
  · intro cap2 u2 hu2 hts hpn
    unfold targetPath urlPathname
    rw [hu, hu2]
    simp only [hts, hpn]

/-- C2 witness: a trailing-slash capture and a hostname change. -/
theorem targetPath_spec_witness :
    targetPath "out" (Capture.mk "20250101123456" "https://example.com/docs/" none)
        = "out/20250101123456/docs/index.html"
    ∧ targetPath "out" (Capture.mk "20250101123456" "https://other.host:8080/docs/" none)
        = targetPath "out" (Capture.mk "20250101123456" "https://example.com/docs/" none) := by
  constructor
  · have h := (targetPath_spec "out" (Capture.mk "20250101123456" "https://example.com/docs/" none)
      (ParsedUrl.mk "https" "example.com" "/docs/" "") (by decide)).1 (by decide)
    rw [h]
    decide
  · exact (targetPath_spec "out" (Capture.mk "20250101123456" "https://example.com/docs/" none)
      (ParsedUrl.mk "https" "example.com" "/docs/" "") (by decide)).2.2
      (Capture.mk "20250101123456" "https://other.host:8080/docs/" none)
      (ParsedUrl.mk "https" "other.host:8080" "/docs/" "") (by decide) rfl rfl

/-- C5: `waybackUrlFor` builds
`https://web.archive.org/web/<timestamp><modifier>/<originalUrl>`, choosing
the modifier from the URL's extension after stripping query string and
fragment: `im_` for the ten image extensions, `cs_` for `.css`, `js_` for
`.js`, and `id_` otherwise. -/
theorem waybackUrlFor_spec (originalUrl timestamp : String) :
    (isImageExt (extOf originalUrl) = true →
      waybackUrlFor originalUrl timestamp =
        "https://web.archive.org/web/" ++ timestamp ++ "im_" ++ "/" ++ originalUrl)
    ∧ (strEnds (extOf originalUrl) ".css" = true →
      waybackUrlFor originalUrl timestamp =
        "https://web.archive.org/web/" ++ timestamp ++ "cs_" ++ "/" ++ originalUrl)
    ∧ (strEnds (extOf originalUrl) ".js" = true →
      waybackUrlFor originalUrl timestamp =
        "https://web.archive.org/web/" ++ timestamp ++ "js_" ++ "/" ++ originalUrl)
    ∧ (isImageExt (extOf originalUrl) = false → strEnds (extOf originalUrl) ".css" = false →
      strEnds (extOf originalUrl) ".js" = false →
      waybackUrlFor originalUrl timestamp =
        "https://web.archive.org/web/" ++ timestamp ++ "id_" ++ "/" ++ originalUrl) := by
  refine ⟨?_, ?_, ?_, ?_⟩
  · intro him
    unfold waybackUrlFor waybackModFor
    simp [him]
  · intro hcss
    unfold waybackUrlFor waybackModFor
    simp [css_not_image hcss, hcss]
  · intro hjs
    unfold waybackUrlFor waybackModFor
    simp [js_not_image hjs, js_not_css hjs, hjs]
  · intro him hcss hjs
    unfold waybackUrlFor waybackModFor
    simp [him, hcss, hjs]

/-- C5 witness: one URL of each modifier class, the image one with a query
string and mixed case. -/
theorem waybackUrlFor_spec_witness :
    waybackUrlFor "https://x.com/a.PNG?v=1" "20250101123456"
      = "https://web.archive.org/web/20250101123456" ++ "im_" ++ "/" ++ "https://x.com/a.PNG?v=1"
    ∧ waybackUrlFor "https://x.com/s.css" "2"
      = "https://web.archive.org/web/2" ++ "cs_" ++ "/" ++ "https://x.com/s.css"
    ∧ waybackUrlFor "https://x.com/s.js" "2"
      = "https://web.archive.org/web/2" ++ "js_" ++ "/" ++ "https://x.com/s.js"
    ∧ waybackUrlFor "https://x.com/p.html" "2"
      = "https://web.archive.org/web/2" ++ "id_" ++ "/" ++ "https://x.com/p.html" := by
  refine ⟨?_, ?_, ?_, ?_⟩
  · have h := (waybackUrlFor_spec "https://x.com/a.PNG?v=1" "20250101123456").1 (by decide)
    rw [h]; decide
  · have h := (waybackUrlFor_spec "https://x.com/s.css" "2").2.1 (by decide)
    rw [h]; decide
  · have h := (waybackUrlFor_spec "https://x.com/s.js" "2").2.2.1 (by decide)
    rw [h]; decide
  · have h := (waybackUrlFor_spec "https://x.com/p.html" "2").2.2.2 (by decide) (by decide) (by decide)
    rw [h]; decide

/-- C8: `buildCdxUrl` serialises exactly the parameter list `cdxParams`,
which always contains `url=<rootUrl>`, `output=json`,
`filter=statuscode:200`, `fl=timestamp,original,mimetype` and
`matchType=exact`; contains `collapse=digest` precisely when
`options.noDedup` is unset; and contains `from`/`to` precisely when the
corresponding option is supplied (supplied values being nonempty, per the
options data model). -/
theorem buildCdxUrl_spec (rootUrl : String) (opts : CLIOptions)
    (hf : ∀ f, opts.fromOpt = some f → f ≠ "")
    (ht : ∀ t, opts.toOpt = some t → t ≠ "") :
    buildCdxUrl rootUrl opts
        = "https://web.archive.org/cdx/search/cdx?" ++ renderQuery (cdxParams rootUrl opts)
    ∧ ("url", rootUrl) ∈ cdxParams rootUrl opts
    ∧ ("output", "json") ∈ cdxParams rootUrl opts
    ∧ ("filter", "statuscode:200") ∈ cdxParams rootUrl opts
    ∧ ("fl", "timestamp,original,mimetype") ∈ cdxParams rootUrl opts
    ∧ ("matchType", "exact") ∈ cdxParams rootUrl opts
    ∧ ((("collapse", "digest") ∈ cdxParams rootUrl opts) ↔ opts.noDedup = false)
    ∧ (∀ f, opts.fromOpt = some f → ("from", f) ∈ cdxParams rootUrl opts)
    ∧ (opts.fromOpt = none → ∀ v, ("from", v) ∉ cdxParams rootUrl opts)
    ∧ (∀ t, opts.toOpt = some t → ("to", t) ∈ cdxParams rootUrl opts)
    ∧ (opts.toOpt = none → ∀ v, ("to", v) ∉ cdxParams rootUrl opts) := by
  obtain ⟨o1, o2, fo, to2, rw2, db, ie, ni, nd⟩ := opts
  simp only at hf ht
  refine ⟨rfl, ?_, ?_, ?_, ?_, ?_, ?_, ?_, ?_, ?_, ?_⟩ <;>
    cases fo <;> cases to2 <;> cases nd <;> simp_all [cdxParams]

/-- C8 witness: options with a date range and dedup left on. -/
theorem buildCdxUrl_spec_witness :
    ("from", "20200101") ∈ cdxParams "https://e.com"
        (CLIOptions.mk "./wayback" 10 (some "20200101") none false false false false false)
    ∧ ("collapse", "digest") ∈ cdxParams "https://e.com"
        (CLIOptions.mk "./wayback" 10 (some "20200101") none false false false false false)
    ∧ (∀ v, ("to", v) ∉ cdxParams "https://e.com"
        (CLIOptions.mk "./wayback" 10 (some "20200101") none false false false false false)) := by
  have h := buildCdxUrl_spec "https://e.com"
    (CLIOptions.mk "./wayback" 10 (some "20200101") none false false false false false)
    (by intro f hx; cases hx; decide) (by intro t hx; cases hx)
  exact ⟨h.2.2.2.2.2.2.2.1 "20200101" rfl, h.2.2.2.2.2.2.1.mpr rfl, h.2.2.2.2.2.2.2.2.2.2 rfl⟩

/-- C3: for a fresh destination, `downloadUrlToPath` makes at most three GET
attempts; the first 2xx response has its body written to the destination,
with one wait of 1000 ms after a first failure and a further wait of
2000 ms after a second; and three non-2xx responses produce the error
carrying the third status code and the attempted URL. -/
theorem downloadUrlToPath_retry_spec (oracle : String → Nat → HttpResponse)
    (fs : Fs) (outRoot timestamp originalUrl : String)
    (hnew : fsGet fs (targetPath outRoot (Capture.mk timestamp originalUrl none)) = none) :
    (downloadUrlToPath oracle fs outRoot timestamp originalUrl).requests ≤ 3
    ∧ (resOk (oracle (waybackUrlFor originalUrl timestamp) 1) = true →
        downloadUrlToPath oracle fs outRoot timestamp originalUrl
          = DlResult.mk
              (fsSet fs (targetPath outRoot (Capture.mk timestamp originalUrl none))
                (oracle (waybackUrlFor originalUrl timestamp) 1).body) 1 DlOutcome.ok
        ∧ (fetchFor (waybackUrlFor originalUrl timestamp)
            (oracle (waybackUrlFor originalUrl timestamp)) 1).waits = [])
    ∧ (resOk (oracle (waybackUrlFor originalUrl timestamp) 1) = false →
       resOk (oracle (waybackUrlFor originalUrl timestamp) 2) = true →
        downloadUrlToPath oracle fs outRoot timestamp originalUrl
          = DlResult.mk
              (fsSet fs (targetPath outRoot (Capture.mk timestamp originalUrl none))
                (oracle (waybackUrlFor originalUrl timestamp) 2).body) 2 DlOutcome.ok
        ∧ (fetchFor (waybackUrlFor originalUrl timestamp)
            (oracle (waybackUrlFor originalUrl timestamp)) 1).waits = [1000])
    ∧ (resOk (oracle (waybackUrlFor originalUrl timestamp) 1) = false →
       resOk (oracle (waybackUrlFor originalUrl timestamp) 2) = false →
       resOk (oracle (waybackUrlFor originalUrl timestamp) 3) = true →
        downloadUrlToPath oracle fs outRoot timestamp originalUrl
          = DlResult.mk
              (fsSet fs (targetPath outRoot (Capture.mk timestamp originalUrl none))
                (oracle (waybackUrlFor originalUrl timestamp) 3).body) 3 DlOutcome.ok
        ∧ (fetchFor (waybackUrlFor originalUrl timestamp)
            (oracle (waybackUrlFor originalUrl timestamp)) 1).waits = [1000, 2000])
    ∧ (resOk (oracle (waybackUrlFor originalUrl timestamp) 1) = false →
       resOk (oracle (waybackUrlFor originalUrl timestamp) 2) = false →
       resOk (oracle (waybackUrlFor originalUrl timestamp) 3) = false →
        downloadUrlToPath oracle fs outRoot timestamp originalUrl
          = DlResult.mk fs 3
              (DlOutcome.error (oracle (waybackUrlFor originalUrl timestamp) 3).status
                (waybackUrlFor originalUrl timestamp))
        ∧ (fetchFor (waybackUrlFor originalUrl timestamp)
            (oracle (waybackUrlFor originalUrl timestamp)) 1).waits = [1000, 2000]) := by
  have hns : (fsGet fs (targetPath outRoot (Capture.mk timestamp originalUrl none))).isSome
      = false := by rw [hnew]; rfl
  refine ⟨?_, ?_, ?_, ?_, ?_⟩
  · unfold downloadUrlToPath
    simp only [hns, Bool.false_eq_true, if_false]
    rw [fetchFor_one]
    split_ifs <;> simp
  · intro h1
    unfold downloadUrlToPath
    simp only [hns, Bool.false_eq_true, if_false]
    rw [fetchFor_one]
    simp [h1]
  · intro h1 h2
    unfold downloadUrlToPath
    simp only [hns, Bool.false_eq_true, if_false]
    rw [fetchFor_one]
    simp [h1, h2]
  · intro h1 h2 h3
    unfold downloadUrlToPath
    simp only [hns, Bool.false_eq_true, if_false]
    rw [fetchFor_one]
    simp [h1, h2, h3]
  · intro h1 h2 h3
    unfold downloadUrlToPath
    simp only [hns, Bool.false_eq_true, if_false]
    rw [fetchFor_one]
    simp [h1, h2, h3]

/-- C3 witness: two failures then a success, and three failures. -/
theorem downloadUrlToPath_retry_spec_witness :
    downloadUrlToPath
        (fun _ n => if n == 3 then HttpResponse.mk 200 none "B" else HttpResponse.mk 500 none "")
        [] "o" "1" "https://e.com/x"
      = DlResult.mk [("o/1/x", "B")] 3 DlOutcome.ok
    ∧ downloadUrlToPath (fun _ _ => HttpResponse.mk 404 none "") [] "o" "1" "https://e.com/x"
      = DlResult.mk [] 3
          (DlOutcome.error 404 (waybackUrlFor "https://e.com/x" "1")) := by
  constructor
  · have h := ((downloadUrlToPath_retry_spec
      (fun _ n => if n == 3 then HttpResponse.mk 200 none "B" else HttpResponse.mk 500 none "")
      [] "o" "1" "https://e.com/x" (by decide)).2.2.2.1 (by decide) (by decide) (by decide)).1
    rw [h]
    decide
  · have h := ((downloadUrlToPath_retry_spec (fun _ _ => HttpResponse.mk 404 none "")
      [] "o" "1" "https://e.com/x" (by decide)).2.2.2.2 (by decide) (by decide) (by decide)).1
    rw [h]

/-- C4: a destination that already exists is returned from immediately:
`downloadUrlToPath` issues no request and leaves the file system untouched;
the page-fetch step of `downloadSnapshot` likewise; and a second
`downloadSnapshot` run in which the page destination and every asset
destination already exist issues zero requests in total. -/
theorem resume_skip_spec (oracle : String → Nat → HttpResponse) (fs : Fs)
    (outRoot : String) (cap : Capture) (opts : CLIOptions) (c : String)
    (hex : fsGet fs (targetPath outRoot cap) = some c)
    (hassets : ∀ a ∈ assetList (debugStep fs outRoot cap opts) outRoot cap opts,
      (fsGet (debugStep fs outRoot cap opts)
        (targetPath outRoot (Capture.mk cap.timestamp a none))).isSome = true) :
    (∀ ts u c2, fsGet fs (targetPath outRoot (Capture.mk ts u none)) = some c2 →
      downloadUrlToPath oracle fs outRoot ts u = DlResult.mk fs 0 DlOutcome.skipped)
    ∧ pageStep oracle fs outRoot cap opts = (fs, 0, none)
    ∧ (downloadSnapshot oracle fs outRoot cap opts).requests = 0 := by
  have hpage : pageStep oracle fs outRoot cap opts = (fs, 0, none) := by
    unfold pageStep
    simp [hex]
  refine ⟨?_, hpage, ?_⟩
  · intro ts u c2 h2
    unfold downloadUrlToPath
    simp [h2]
  · unfold downloadSnapshot
    rw [hpage]
    have hskip := assetFold_skip oracle outRoot cap.timestamp
      (assetList (debugStep fs outRoot cap opts) outRoot cap opts)
      (debugStep fs outRoot cap opts) 0 hassets
    simp only [assetStep, hskip]

/-- C4 witness: a page and its one asset both on disk; the second run
issues zero requests. -/
theorem resume_skip_spec_witness :
    (downloadSnapshot (fun _ _ => HttpResponse.mk 200 none "")
      [("o/1/index.html", "<img src=\"/a.png\">"), ("o/1/a.png", "")] "o"
      (Capture.mk "1" "https://e.com/" none)
      (CLIOptions.mk "./wayback" 10 none none false false false false false)).requests = 0 := by
  exact (resume_skip_spec (fun _ _ => HttpResponse.mk 200 none "")
    [("o/1/index.html", "<img src=\"/a.png\">"), ("o/1/a.png", "")] "o"
    (Capture.mk "1" "https://e.com/" none)
    (CLIOptions.mk "./wayback" 10 none none false false false false false)
    "<img src=\"/a.png\">" (by decide) (by decide)).2.2

/-- The propagated error of `downloadSnapshot` is exactly the error of its
page step; the debug and asset steps never raise one. -/
theorem downloadSnapshot_err_eq (oracle : String → Nat → HttpResponse) (fs0 : Fs)
    (outRoot : String) (cap : Capture) (opts : CLIOptions) :
    (downloadSnapshot oracle fs0 outRoot cap opts).err
      = (pageStep oracle fs0 outRoot cap opts).2.2 := by
  unfold downloadSnapshot
  split
  next fs2 reqs e heq => rw [heq]
  next fs2 reqs heq => rw [heq]

/-- C6: `downloadSnapshot` fails precisely when its page had to be fetched
and all three page attempts returned non-2xx; asset downloads, whatever
responses the oracle assigns their URLs, never make it fail; and the error
propagated in that single failing case is the page `FetchError` (third
status, replay URL). -/
theorem downloadSnapshot_failure_spec (oracle : String → Nat → HttpResponse) (fs0 : Fs)
    (outRoot : String) (cap : Capture) (opts : CLIOptions) :
    ((downloadSnapshot oracle fs0 outRoot cap opts).err ≠ none ↔
      (fsGet fs0 (targetPath outRoot cap) = none
        ∧ resOk (oracle (waybackUrlFor cap.original cap.timestamp) 1) = false
        ∧ resOk (oracle (waybackUrlFor cap.original cap.timestamp) 2) = false
        ∧ resOk (oracle (waybackUrlFor cap.original cap.timestamp) 3) = false))
    ∧ (fsGet fs0 (targetPath outRoot cap) = none →
        resOk (oracle (waybackUrlFor cap.original cap.timestamp) 1) = false →
        resOk (oracle (waybackUrlFor cap.original cap.timestamp) 2) = false →
        resOk (oracle (waybackUrlFor cap.original cap.timestamp) 3) = false →
        (downloadSnapshot oracle fs0 outRoot cap opts).err
          = some ((oracle (waybackUrlFor cap.original cap.timestamp) 3).status,
              waybackUrlFor cap.original cap.timestamp)) := by
  rw [downloadSnapshot_err_eq]
  constructor
  · unfold pageStep
    cases hex : fsGet fs0 (targetPath outRoot cap) with
    | some c => simp [hex]
    | none =>
      simp only [hex, Option.isSome_none, Bool.false_eq_true, if_false]
      rw [fetchFor_one]
      cases h1 : resOk (oracle (waybackUrlFor cap.original cap.timestamp) 1) with
      | true => simp [h1]
      | false =>
        cases h2 : resOk (oracle (waybackUrlFor cap.original cap.timestamp) 2) with
        | true => simp [h1, h2]
        | false =>
          cases h3 : resOk (oracle (waybackUrlFor cap.original cap.timestamp) 3) with
          | true => simp [h1, h2, h3]
          | false => simp [h1, h2, h3]
  · intro hex h1 h2 h3
    unfold pageStep
    simp only [hex, Option.isSome_none, Bool.false_eq_true, if_false]
    rw [fetchFor_one]
    simp [h1, h2, h3]

/-- C6 witness: an always-404 oracle makes the capture fail with the page
error; a page already on disk cannot fail whatever the oracle does. -/
theorem downloadSnapshot_failure_spec_witness :
    (downloadSnapshot (fun _ _ => HttpResponse.mk 404 none "") [] "o"
        (Capture.mk "1" "https://e.com/x" none)
        (CLIOptions.mk "./wayback" 10 none none false false false false false)).err
      = some (404, waybackUrlFor "https://e.com/x" "1") := by
  have h := (downloadSnapshot_failure_spec (fun _ _ => HttpResponse.mk 404 none "") [] "o"
    (Capture.mk "1" "https://e.com/x" none)
    (CLIOptions.mk "./wayback" 10 none none false false false false false)).2
    (by decide) (by decide) (by decide) (by decide)
  rw [h]

/-- C9, counterexample to the claim as stated: with `options.debug` set and
a capture whose URL path is `/debug.json`, the capture's destination file
coincides with the debug metadata file, and the invocation changes its
existing content by appending a metadata line even though the destination
already existed (`options.rewrite` is also set and plays no role). -/
theorem resumeDest_changed_counterexample :
    fsGet (downloadSnapshot (fun _ _ => HttpResponse.mk 200 (some "text/html") "")
        [("o/1/debug.json", "X")] "o" (Capture.mk "1" "https://e.com/debug.json" none)
        (CLIOptions.mk "./wayback" 10 none none true true false false false)).fs
      "o/1/debug.json" ≠ some "X" := by decide

/-- C9 as amended: a destination that exists at invocation keeps its exact
content — the rewrite pass runs only in the fetch branch, asset downloads
skip existing destinations — provided the destination is not the debug
metadata file being appended to (`options.debug` unset, or the capture's
destination differs from `<outRoot>/<timestamp>/debug.json`). -/
theorem resumeDest_unchanged_spec (oracle : String → Nat → HttpResponse) (fs0 : Fs)
    (outRoot : String) (cap : Capture) (opts : CLIOptions) (c : String)
    (hex : fsGet fs0 (targetPath outRoot cap) = some c)
    (hdbg : opts.debug = false ∨ debugPathFor outRoot cap ≠ targetPath outRoot cap) :
    fsGet (downloadSnapshot oracle fs0 outRoot cap opts).fs (targetPath outRoot cap)
      = some c := by
  have hpage : pageStep oracle fs0 outRoot cap opts = (fs0, 0, none) := by
    unfold pageStep
    simp [hex]
  unfold downloadSnapshot
  rw [hpage]
  simp only
  have hdbgfs : fsGet (debugStep fs0 outRoot cap opts) (targetPath outRoot cap) = some c := by
    unfold debugStep
    cases hd : opts.debug with
    | false => simpa using hex
    | true =>
      rcases hdbg with h | h
      · rw [hd] at h
        exact absurd h (by simp)
      · simp only [if_true]
        rw [fsGet_fsAppend_ne (Ne.symm h)]
        exact hex
  unfold assetStep
  exact assetFold_preserves _ _ _ hdbgfs

/-- C9 witness for the amended claim: an existing page with an archive link
and the rewrite flag set stays byte-for-byte identical. -/
theorem resumeDest_unchanged_spec_witness :
    fsGet (downloadSnapshot (fun _ _ => HttpResponse.mk 200 (some "text/html") "")
        [("o/1/index.html", "<a href=\"https://web.archive.org/web/2id_/https://e.com/\">x</a>")]
        "o" (Capture.mk "1" "https://e.com/" none)
        (CLIOptions.mk "./wayback" 10 none none true false false false false)).fs
      "o/1/index.html"
      = some "<a href=\"https://web.archive.org/web/2id_/https://e.com/\">x</a>" := by
  exact resumeDest_unchanged_spec (fun _ _ => HttpResponse.mk 200 (some "text/html") "")
    [("o/1/index.html", "<a href=\"https://web.archive.org/web/2id_/https://e.com/\">x</a>")]
    "o" (Capture.mk "1" "https://e.com/" none)
    (CLIOptions.mk "./wayback" 10 none none true false false false false)
    "<a href=\"https://web.archive.org/web/2id_/https://e.com/\">x</a>"
    (by decide) (Or.inr (by decide))

/-- C7: every URL returned by `extractAssetUrls` passes the final filter:
it does not start with `data:`, does not start with `javascript:`, and
satisfies the HTTP(S)-or-protocol-relative test (candidates failing URL
resolution were already dropped when the candidate list was built). -/
theorem extractAssetUrls_filter_spec (html baseUrl u : String)
    (hu : u ∈ extractAssetUrls html baseUrl) :
    strStarts u "data:" = false ∧ strStarts u "javascript:" = false ∧ urlKeep u = true := by
  simp only [extractAssetUrls] at hu
  have hm := List.mem_filter.mp hu
  have hkeep : urlKeep u = true := hm.2
  refine ⟨?_, ?_, hkeep⟩
  · have h2 := hkeep
    unfold urlKeep at h2
    simp only [Bool.and_eq_true, Bool.not_eq_true'] at h2
    exact h2.1.2
  · have h2 := hkeep
    unfold urlKeep at h2
    simp only [Bool.and_eq_true, Bool.not_eq_true'] at h2
    exact h2.2

/-- C7 witness: an extraction containing `javascript:` and `data:`
candidates; the surviving URL passes all three filter conditions. -/
theorem extractAssetUrls_filter_spec_witness :
    "https://example.com/i/1.png" ∈ extractAssetUrls
        "<img src=\"/i/1.png\"><a href=\"javascript:void(0)\">x</a><img src=\"data:image/png;base64,AA\" />"
        "https://example.com/page/index.html"
    ∧ strStarts "https://example.com/i/1.png" "data:" = false
    ∧ strStarts "https://example.com/i/1.png" "javascript:" = false
    ∧ urlKeep "https://example.com/i/1.png" = true := by
  have hmem : "https://example.com/i/1.png" ∈ extractAssetUrls
      "<img src=\"/i/1.png\"><a href=\"javascript:void(0)\">x</a><img src=\"data:image/png;base64,AA\" />"
      "https://example.com/page/index.html" := by decide
  have h := extractAssetUrls_filter_spec
    "<img src=\"/i/1.png\"><a href=\"javascript:void(0)\">x</a><img src=\"data:image/png;base64,AA\" />"
    "https://example.com/page/index.html" "https://example.com/i/1.png" hmem
  exact ⟨hmem, h.1, h.2.1, h.2.2⟩

/-- Every value collected by the fuel-indexed attribute scanner sits in the
input between a matching pair of quotes directly preceded by an attribute
name and `=`. -/
theorem scanAttrsFuel_quoted {names : List (List Char)} (fuel : Nat) (prev : Option Char)
    (l v : List Char) (hv : v ∈ scanAttrsFuel names fuel prev l) :
    ∃ pre a post, ∃ q : Char, (q == '"' || q == squoteChar) = true ∧
      a.map Char.toLower ∈ names ∧
      l = pre ++ a ++ '=' :: q :: (v ++ q :: post) := by
  induction fuel generalizing prev l with
  | zero => exact absurd hv (by simp [scanAttrsFuel])
  | succ fuel ih =>
    cases l with
    | nil => exact absurd hv (by simp [scanAttrsFuel])
    | cons c t =>
      simp only [scanAttrsFuel] at hv
      cases hm : matchAttrAt names prev (c :: t) with
      | none =>
        rw [hm] at hv
        obtain ⟨pre, a, post, q, hq, hn, hl⟩ := ih (some c) t hv
        exact ⟨c :: pre, a, post, q, hq, hn, by simp [hl]⟩
      | some r =>
        rw [hm] at hv
        obtain ⟨a0, q0, v0, rest0⟩ := r
        rcases List.mem_cons.mp hv with heq | hrec
        · subst heq
          obtain ⟨hl, hn, hq⟩ := matchAttrAt_spec hm
          exact ⟨[], a0, rest0, q0, hq, hn, by simpa using hl⟩
        · obtain ⟨pre, a, post, q, hq, hn, hl⟩ := ih (some q0) rest0 hrec
          obtain ⟨hl0, hn0, hq0⟩ := matchAttrAt_spec hm
          refine ⟨a0 ++ '=' :: q0 :: (v0 ++ q0 :: pre), a, post, q, hq, hn, ?_⟩
          rw [hl0, hl]
          simp [List.append_assoc]

/-- C10: the `src`/`href` scanner collects only attribute values enclosed
in matching single or double quotes (each collected value decomposes the
input as `...<attr>=<q><value><q>...` with the same quote on both sides),
and an unquoted attribute value contributes nothing: the example HTML with
only unquoted `src`/`href` values extracts to the empty list. -/
theorem attrValues_quoted_spec :
    (∀ html v, v ∈ scanAttrs attrNames none html →
      ∃ pre a post, ∃ q : Char, (q == '"' || q == squoteChar) = true ∧
        a.map Char.toLower ∈ attrNames ∧
        html = pre ++ a ++ '=' :: q :: (v ++ q :: post))
    ∧ extractAssetUrls "<img src=/a.png><a href=x.html>z</a>" "https://example.com/" = [] := by
  constructor
  · intro html v hv
    exact scanAttrsFuel_quoted _ _ _ _ hv
  · decide

/-- C10 witness: a quoted value is collected and admits the quoted
decomposition. -/
theorem attrValues_quoted_spec_witness :
    "/a.png".data ∈ scanAttrs attrNames none "<img src=\"/a.png\">".data
    ∧ ∃ pre a post, ∃ q : Char, (q == '"' || q == squoteChar) = true ∧
        a.map Char.toLower ∈ attrNames ∧
        "<img src=\"/a.png\">".data = pre ++ a ++ '=' :: q :: ("/a.png".data ++ q :: post) := by
  have hmem : "/a.png".data ∈ scanAttrs attrNames none "<img src=\"/a.png\">".data := by decide
  exact ⟨hmem, attrValues_quoted_spec.1 "<img src=\"/a.png\">".data "/a.png".data hmem⟩

/-- C1, evaluation at the failing input: the substitution pattern written
in the source (`[0-9]+id?\/_`) does not match the archive's actual
timestamp-plus-identity-modifier prefix `<digits>id_/`, so the rewrite
leaves a genuine archived link untouched — both directly and through
`downloadSnapshot` with `rewrite` set, `debug` unset and an HTML
content type — while it does strip the transposed text `<digits>id/_`
that never occurs in archive URLs. -/
theorem rewriteHtml_misses_archive_links :
    rewriteHtml "<a href=\"https://web.archive.org/web/20200101000000id_/https://example.com/a.png\">x</a>"
      = "<a href=\"https://web.archive.org/web/20200101000000id_/https://example.com/a.png\">x</a>"
    ∧ rewriteHtml "https://web.archive.org/web/20200101000000id/_foo" = "foo"
    ∧ fsGet (downloadSnapshot
        (fun _ _ => HttpResponse.mk 200 (some "text/html")
          "<img src=\"https://web.archive.org/web/20200101000000id_/https://example.com/a.png\">")
        [] "o" (Capture.mk "1" "https://example.com/p.html" none)
        (CLIOptions.mk "./wayback" 10 none none true false false false false)).fs
      "o/1/p.html"
      = some "<img src=\"https://web.archive.org/web/20200101000000id_/https://example.com/a.png\">" := by
  refine ⟨by decide, by decide, by decide⟩

end Wayback
